import Mathlib

/-!
Shallow embedding of the content-retrieval subsystem of the news-terminal
repository (src/news_terminal/scraper.py, class ArticleScraper).

Modelling conventions:
* Python strings are `Str := List Char`; character classes (`\w`, `\s`,
  `str.lower`, percent-decoding) are modelled at ASCII scope, which is the
  scope all the claims exercise.
* Network and HTML parsing are effectful; they are modelled by an oracle
  `net : Str → Option Node` mapping a URL to the parsed document when the
  HTTP GET and the parse both succeed, and to `none` when any exception
  (timeout, non-2xx status, connection or TLS error, parse failure) occurs.
  Every `except` block in the source maps to the `none` branch of the oracle.
* BeautifulSoup documents are rose trees (`Node`); `soup.select` is a
  preorder traversal filtered by a selector; `element.decompose()` is
  subtree removal.
-/

namespace NT

abbrev Str := List Char

/-- Python `str.lower` (ASCII scope). -/
def lowerS (s : Str) : Str := s.map Char.toLower

/-- Python whitespace (`\s`, `str.strip`, `str.split`) at ASCII scope. -/
def isSpaceB (c : Char) : Bool :=
  c == ' ' || c == '\t' || c == '\n' || c == '\r' || c == '\x0b' || c == '\x0c'

/-- Python word character (`\w`) at ASCII scope: alphanumeric or underscore. -/
def isWordB (c : Char) : Bool := c.isAlphanum || c == '_'

/-- Boolean test for `p` being a prefix of `l` (Python `str.startswith`). -/
def isPrefixB : Str → Str → Bool
  | [], _ => true
  | _ :: _, [] => false
  | a :: as, b :: bs => a == b && isPrefixB as bs

/-- Boolean test for `p` being a contiguous substring of `l` (Python `in`). -/
def isInfixB (p : Str) : Str → Bool
  | [] => isPrefixB p []
  | c :: rest => isPrefixB p (c :: rest) || isInfixB p rest

/-- Python `str.strip()`: drop leading and trailing whitespace. -/
def pyStrip (s : Str) : Str :=
  ((s.dropWhile isSpaceB).reverse.dropWhile isSpaceB).reverse

/-- Python `str.split()` (split on whitespace runs, dropping empty fields). -/
def splitWSGo : Str → Str → List Str
  | [], acc => if acc.isEmpty then [] else [acc.reverse]
  | c :: rest, acc =>
    if isSpaceB c then
      (if acc.isEmpty then splitWSGo rest [] else acc.reverse :: splitWSGo rest [])
    else splitWSGo rest (c :: acc)

def splitWS (s : Str) : List Str := splitWSGo s []

/-- HTML node as parsed by BeautifulSoup: an element with a tag name, an
attribute list and children, or a text node (NavigableString). -/
inductive Node where
  | elem (tag : Str) (attrs : List (Str × Str)) (children : List Node)
  | text (s : Str)

/-- Value of attribute `k`, absent attributes defaulting to `dflt`
(Python `tag.get(k, dflt)`). -/
def attrOf (n : Node) (k : Str) (dflt : Str) : Str :=
  match n with
  | .text _ => dflt
  | .elem _ attrs _ => (((attrs.find? fun p => p.1 == k).map Prod.snd).getD dflt)

/-- CSS selectors actually used by ArticleScraper: a bare tag name,
an attribute-substring selector `[class*="s"]`, an attribute-equality
selector `[k="v"]`, a class selector `.c`, and a tag-plus-class selector
`t.c` (used for `a.result__a`). -/
inductive Selector where
  | tag (t : Str)
  | classContains (s : Str)
  | attrEq (k v : Str)
  | clsTok (c : Str)
  | tagClass (t c : Str)

/-- Raw class attribute of an element (soupsieve matches `[class*=...]`
against the space-joined attribute value). -/
def classAttrOf (attrs : List (Str × Str)) : Str :=
  (((attrs.find? fun p => p.1 == "class".data).map Prod.snd).getD [])

/-- Does node `n` match selector `s`? Text nodes never match. -/
def matchesSel (s : Selector) (n : Node) : Bool :=
  match n with
  | .text _ => false
  | .elem tag attrs _ =>
    match s with
    | .tag t => tag == t
    | .classContains sub => isInfixB sub (classAttrOf attrs)
    | .attrEq k v => ((attrs.find? fun p => p.1 == k).map Prod.snd) == some v
    | .clsTok c => (splitWS (classAttrOf attrs)).contains c
    | .tagClass t c => tag == t && (splitWS (classAttrOf attrs)).contains c

mutual

/-- Document-order (preorder) traversal of a node, the node itself first. -/
def preorder : Node → List Node
  | .text s => [.text s]
  | .elem t a cs => .elem t a cs :: preorderList cs

def preorderList : List Node → List Node
  | [] => []
  | n :: ns => preorder n ++ preorderList ns

end

/-- BeautifulSoup `soup.select(sel)`: all matching elements in document
order (the selectors used have no combinators, so matching is local). -/
def select (soup : Node) (s : Selector) : List Node :=
  (preorder soup).filter (matchesSel s)

mutual

/-- All text-node contents below (and at) a node, in document order
(BeautifulSoup `strings`). -/
def textsOf : Node → List Str
  | .text s => [s]
  | .elem _ _ cs => textsOfList cs

def textsOfList : List Node → List Str
  | [] => []
  | n :: ns => textsOf n ++ textsOfList ns

end

/-- BeautifulSoup `get_text()` (no separator, no strip). -/
def getText (n : Node) : Str := (textsOf n).flatten

/-- BeautifulSoup `get_text(strip=True)`: each string stripped, whitespace-only
strings dropped, joined with the empty separator. -/
def getTextStrip (n : Node) : Str :=
  (((textsOf n).map pyStrip).filter (fun t => !t.isEmpty)).flatten

/-- BeautifulSoup `get_text(separator='\n', strip=True)`. -/
def getTextNL (n : Node) : Str :=
  List.intercalate ['\n'] (((textsOf n).map pyStrip).filter (fun t => !t.isEmpty))

mutual

/-- One pass of `for element in soup.select(sel): element.decompose()`:
every matching node is removed together with its subtree (matching is a
local predicate, so removing outermost matches first is equivalent). -/
def removeSel (s : Selector) : Node → Node
  | .text t => .text t
  | .elem tag attrs cs => .elem tag attrs (removeSelL s cs)

def removeSelL (s : Selector) : List Node → List Node
  | [] => []
  | c :: cs =>
    if matchesSel s c then removeSelL s cs
    else removeSel s c :: removeSelL s cs

end

/-- ArticleScraper.CONTENT_SELECTORS, in source order. -/
def CONTENT_SELECTORS : List Selector :=
  [ .tag "article".data,
    .classContains "article-body".data,
    .classContains "article-content".data,
    .classContains "post-content".data,
    .classContains "entry-content".data,
    .classContains "story-body".data,
    .classContains "content-body".data,
    .attrEq "itemprop".data "articleBody".data,
    .clsTok "article__body".data,
    .clsTok "article-text".data,
    .clsTok "story-content".data,
    .tag "main".data ]

/-- ArticleScraper.REMOVE_SELECTORS, in source order. -/
def REMOVE_SELECTORS : List Selector :=
  [ .tag "script".data, .tag "style".data, .tag "nav".data,
    .tag "header".data, .tag "footer".data, .tag "aside".data,
    .clsTok "advertisement".data, .clsTok "ad".data, .clsTok "ads".data,
    .clsTok "social-share".data, .clsTok "related-articles".data,
    .clsTok "comments".data, .clsTok "sidebar".data,
    .classContains "newsletter".data, .classContains "subscribe".data,
    .classContains "popup".data, .classContains "modal".data ]

/-- The removal loop of `_scrape_url`: one decompose pass per selector,
in source order. -/
def removeAll (soup : Node) : Node :=
  REMOVE_SELECTORS.foldl (fun d s => removeSel s d) soup

/-- Python `max(elements, key=lambda x: len(x.get_text()))` over `x :: xs`:
left fold keeping the first element of maximal key. -/
def pyMaxByLen (x : Node) (xs : List Node) : Node :=
  xs.foldl (fun best y => if (getText best).length < (getText y).length then y else best) x

/-- The selector loop of `_scrape_url`: first selector with a non-empty
match set wins, and within it the element of maximal raw text length. -/
def firstMatch (soup : Node) : List Selector → Option Node
  | [] => none
  | s :: ss =>
    match select soup s with
    | [] => firstMatch soup ss
    | x :: xs => some (pyMaxByLen x xs)

/-- BeautifulSoup `soup.body`: first `body` element in document order. -/
def findBody (soup : Node) : Option Node :=
  (preorder soup).find? fun n =>
    match n with
    | .elem t _ _ => t == "body".data
    | .text _ => false

/-- Content-container choice of `_scrape_url` (selector loop plus the
`soup.body if soup.body else soup` fallback when no selector matched). -/
def selectContent (soup : Node) : Node :=
  match firstMatch soup CONTENT_SELECTORS with
  | some c => c
  | none =>
    match findBody soup with
    | some b => b
    | none => soup

/-- Tail of `re.sub(r'\n{3,}', '\n\n', text)`: a maximal run of `k`
newlines is replaced by `min k 2` of them when `k ≥ 3`; shorter runs are
kept (`min` gives exactly that for every `k`). -/
def emitNL (k : Nat) : Str := List.replicate (min k 2) '\n'

def collapseGo : Nat → Str → Str
  | k, [] => emitNL k
  | k, '\n' :: rest => collapseGo (k + 1) rest
  | k, c :: rest => emitNL k ++ c :: collapseGo 0 rest

/-- Python `re.sub(r'\n{3,}', '\n\n', text)`. -/
def collapseNL (s : Str) : Str := collapseGo 0 s

/-- Is `n` one of the paragraph-like elements `find_all` looks for? -/
def isPara (n : Node) : Bool :=
  match n with
  | .elem t _ _ =>
    t == "p".data || t == "h2".data || t == "h3".data || t == "blockquote".data
  | .text _ => false

/-- BeautifulSoup `element.find_all(['p', 'h2', 'h3', 'blockquote'])`:
matching descendants (not the element itself) in document order. -/
def paraNodes (n : Node) : List Node :=
  match n with
  | .text _ => []
  | .elem _ _ cs => (preorderList cs).filter isPara

/-- ArticleScraper._extract_text. -/
def extract_text (el : Node) : Str :=
  let ps := paraNodes el
  if ps.isEmpty then
    collapseNL (getTextNL el)
  else
    List.intercalate "\n\n".data
      ((ps.map getTextStrip).filter fun t => !t.isEmpty && decide (20 < t.length))

/-- ArticleScraper._scrape_url, with the network-and-parse effect abstracted
into the oracle `net` (oracle `none` covers every exception path of the
`try` block: timeout, bad status, connection or TLS failure, parser error). -/
def scrape_url (net : Str → Option Node) (url : Str) : Option Str :=
  if url.isEmpty then none
  else
    match net url with
    | none => none
    | some soup =>
      let soup2 := removeAll soup
      let content := selectContent soup2
      let text := extract_text content
      if text.length < 100 then none else some text

/-- Python `re.sub(r'[^\w\s]', '', title)`: drop every character that is
neither a word character nor whitespace. -/
def reSubNonWordSpace : Str → Str
  | [] => []
  | c :: rest =>
    if isWordB c || isSpaceB c then c :: reSubNonWordSpace rest
    else reSubNonWordSpace rest

/-- Characters `urllib.parse.quote` keeps unescaped with the default
`safe='/'`: unreserved characters plus the slash. -/
def quoteSafeB (c : Char) : Bool :=
  c.isAlphanum || c == '_' || c == '.' || c == '-' || c == '~' || c == '/'

def hexDigit (n : Nat) : Char :=
  if n < 10 then Char.ofNat (48 + n) else Char.ofNat (55 + n)

/-- Python `urllib.parse.quote` (ASCII scope): percent-encode every unsafe
character as uppercase `%XX`. -/
def urlQuote (s : Str) : Str :=
  s.flatMap fun c =>
    if quoteSafeB c then [c]
    else ['%', hexDigit (c.toNat / 16 % 16), hexDigit (c.toNat % 16)]

def hexVal (c : Char) : Option Nat :=
  if '0' ≤ c ∧ c ≤ '9' then some (c.toNat - 48)
  else if 'a' ≤ c ∧ c ≤ 'f' then some (c.toNat - 87)
  else if 'A' ≤ c ∧ c ≤ 'F' then some (c.toNat - 55)
  else none

/-- Python `urllib.parse.unquote` (ASCII scope): decode `%XX` pairs,
leaving malformed escapes in place. -/
def urlDecode : Str → Str
  | [] => []
  | '%' :: a :: b :: r2 =>
    (match hexVal a, hexVal b with
     | some ha, some hb => Char.ofNat (16 * ha + hb) :: urlDecode r2
     | _, _ => '%' :: urlDecode (a :: b :: r2))
  | c :: rest => c :: urlDecode rest

/-- Python `re.search(r'uddg=([^&]+)', href)` followed by `.group(1)`:
leftmost position where `uddg=` is followed by at least one non-`&`
character; the group is the maximal such run. -/
def uddgSearch : Str → Option Str
  | [] => none
  | c :: rest =>
    if isPrefixB "uddg=".data (c :: rest) then
      let t := (rest.drop 4).takeWhile fun x => x != '&'
      if t.isEmpty then uddgSearch rest else some t
    else uddgSearch rest

/-- Host-level entries of the skip-pattern list of `_is_news_url`
(social, video, shopping and encyclopedia domains). -/
def domain_patterns : List Str :=
  [ "youtube.com".data, "twitter.com".data, "facebook.com".data,
    "instagram.com".data, "reddit.com".data, "wikipedia.org".data,
    "amazon.com".data, "ebay.com".data ]

/-- Path-level entries of the skip-pattern list of `_is_news_url`. -/
def path_patterns : List Str :=
  [ "/search".data, "/category".data, "/tag/".data, "/author/".data ]

/-- ArticleScraper._is_news_url: skip-pattern list, in source order. -/
def skip_patterns : List Str := domain_patterns ++ path_patterns

/-- ArticleScraper._is_news_url: no skip pattern occurs in the lowercased URL. -/
def is_news_url (url : Str) : Bool :=
  !(skip_patterns.any fun p => isInfixB p (lowerS url))

/-- Split a string at its first colon, as `urllib.parse` does when it looks
for a scheme. -/
def splitAtColon : Str → Option (Str × Str)
  | [] => none
  | c :: r =>
    if c = ':' then some ([], r)
    else (splitAtColon r).map fun ab => (c :: ab.1, ab.2)

/-- Is `s` a syntactically valid URL scheme (letter first, then letters,
digits, `+`, `-`, `.`)? -/
def isSchemeStr (s : Str) : Bool :=
  match s with
  | [] => false
  | c :: cs => c.isAlpha && cs.all fun x => x.isAlphanum || x == '+' || x == '-' || x == '.'

/-- The URL with its scheme prefix removed when a valid one is present. -/
def afterScheme (url : Str) : Str :=
  match splitAtColon url with
  | some (a, b) => if isSchemeStr a then b else url
  | none => url

/-- Python `urlparse(url).netloc`: when the scheme-free remainder starts
with `//`, everything up to the next `/`, `?` or `#`; empty otherwise. -/
def netlocOf (url : Str) : Str :=
  if isPrefixB "//".data (afterScheme url) then
    ((afterScheme url).drop 2).takeWhile fun c => c != '/' && c != '?' && c != '#'
  else []

/-- Python `urlparse(url).path`: what follows the netloc, up to the query
or fragment. -/
def pathOf (url : Str) : Str :=
  if isPrefixB "//".data (afterScheme url) then
    ((((afterScheme url).drop 2).dropWhile
        fun c => c != '/' && c != '?' && c != '#').takeWhile
      fun c => c != '?' && c != '#')
  else (afterScheme url).takeWhile fun c => c != '?' && c != '#'

/-- Python `str.replace('www.', '')`: remove every occurrence, scanning
left to right. -/
def replaceWww : Str → Str
  | 'w' :: 'w' :: 'w' :: '.' :: rest => replaceWww rest
  | c :: rest => c :: replaceWww rest
  | [] => []

/-- ArticleScraper._get_domain (its `except` branch is unreachable:
`urlparse` and `replace` do not raise on strings). -/
def get_domain (url : Str) : Str := replaceWww (netlocOf url)

/-- One iteration of the result-link loop of `_search_alternative_sources`:
possibly append a candidate derived from `href` to `acc`. -/
def processLink (acc : List Str) (href : Str) : List Str :=
  if isInfixB "uddg=".data href then
    match uddgSearch href with
    | some m =>
      let u := urlDecode m
      if is_news_url u then acc ++ [u] else acc
    | none => acc
  else if isPrefixB "http".data href then
    (if is_news_url href then acc ++ [href] else acc)
  else acc

/-- The collection loop of `_search_alternative_sources`: process links in
order, stopping as soon as five candidates are gathered. -/
def collectUrls : List Str → List Str → List Str
  | [], acc => acc
  | h :: rest, acc =>
    let a2 := processLink acc h
    if 5 ≤ a2.length then a2 else collectUrls rest a2

/-- Sanitized search query (`re.sub` then `[:100]`). -/
def searchQueryOf (title : Str) : Str := (reSubNonWordSpace title).take 100

/-- The full query string `f"{search_query} news"` that gets URL-encoded. -/
def queryOf (title : Str) : Str := searchQueryOf title ++ " news".data

/-- The DuckDuckGo HTML search URL built by `_search_alternative_sources`. -/
def searchUrlOf (title : Str) : Str :=
  "https://html.duckduckgo.com/html/?q=".data ++ urlQuote (queryOf title)

/-- The `href` attributes of `soup.select('a.result__a')`, with
`link.get('href', '')` defaulting to the empty string. -/
def linkHrefs (soup : Node) : List Str :=
  (select soup (.tagClass "a".data "result__a".data)).map fun l => attrOf l "href".data []

/-- ArticleScraper._search_alternative_sources: fetch and parse the search
page through the oracle (oracle `none` is any network or parse failure,
which the source converts to an empty list), then run the collection loop. -/
def search (net : Str → Option Node) (title : Str) : List Str :=
  match net (searchUrlOf title) with
  | none => []
  | some soup => collectUrls (linkHrefs soup) []

/-- Python truthiness of the `title` argument (`if title:`): `None` and the
empty string are both falsy. -/
def titleTruthy : Option Str → Bool
  | none => false
  | some t => !t.isEmpty

/-- The fallback loop of fetch_article: try candidates in order, skipping
any equal to the original URL, returning on the first scrape success. -/
def tryAlts (net : Str → Option Node) (url : Str) : List Str → Option Str × Str
  | [] => (none, "failed".data)
  | a :: rest =>
    if a = url then tryAlts net url rest
    else
      match scrape_url net a with
      | some c => (some c, "alternative: ".data ++ get_domain a)
      | none => tryAlts net url rest

/-- ArticleScraper.fetch_article: primary URL first, then (when the title
is truthy) the search fallback, and `(None, "failed")` as the terminal
state. -/
def fetch_article (net : Str → Option Node) (url : Str) (title : Option Str) :
    Option Str × Str :=
  match scrape_url net url with
  | some c => (some c, "original".data)
  | none =>
    if titleTruthy title then tryAlts net url (search net (title.getD []))
    else (none, "failed".data)

/-! Helper lemmas. -/

theorem tryAlts_label (net : Str → Option Node) (url : Str) (alts : List Str) :
    (tryAlts net url alts).2 = "failed".data
      ∨ ∃ d, (tryAlts net url alts).2 = "alternative: ".data ++ d := by
  induction alts with
  | nil => exact Or.inl rfl
  | cons a rest ih =>
    unfold tryAlts
    split
    · exact ih
    · cases hs : scrape_url net a with
      | some c => exact Or.inr ⟨get_domain a, by simp⟩
      | none => exact ih

theorem tryAlts_some (net : Str → Option Node) (url : Str) (alts : List Str)
    (t : Str) (lbl : Str) (h : tryAlts net url alts = (some t, lbl)) :
    ∃ a ∈ alts, a ≠ url ∧ scrape_url net a = some t
      ∧ lbl = "alternative: ".data ++ get_domain a := by
  induction alts with
  | nil => simp [tryAlts] at h
  | cons a rest ih =>
    unfold tryAlts at h
    split at h
    · obtain ⟨b, hb, h1, h2, h3⟩ := ih h
      exact ⟨b, List.mem_cons_of_mem a hb, h1, h2, h3⟩
    · rename_i hne
      rcases hs : scrape_url net a with _ | c <;> rw [hs] at h
      · obtain ⟨b, hb, h1, h2, h3⟩ := ih h
        exact ⟨b, List.mem_cons_of_mem a hb, h1, h2, h3⟩
      · simp only [Prod.mk.injEq, Option.some.injEq] at h
        obtain ⟨h1, h2⟩ := h
        subst h1
        exact ⟨a, List.mem_cons_self a rest, hne, hs, h2.symm⟩

theorem length_if_min (u : Str) (t : Str)
    (h : (if u.length < 100 then (none : Option Str) else some u) = some t) :
    100 ≤ t.length := by
  split at h
  · simp at h
  · rw [Option.some.injEq] at h
    subst h
    omega

theorem scrape_url_min (net : Str → Option Node) (url : Str) (t : Str)
    (h : scrape_url net url = some t) : 100 ≤ t.length := by
  unfold scrape_url at h
  split at h
  · simp at h
  · rcases hn : net url with _ | soup <;> rw [hn] at h
    · simp at h
    · exact length_if_min (extract_text (selectContent (removeAll soup))) t h

/-! Claim theorems. -/

/-- C1: for every oracle, URL and title (present or absent), fetch_article is a
total function returning a (text?, label) pair whose label is `original`,
`alternative: <domain>` or `failed` — no exception can escape, since every
failure mode of the components is a `none`/empty-list value. -/
theorem fetch_article_label_total (net : Str → Option Node) (url : Str)
    (title : Option Str) :
    (fetch_article net url title).2 = "original".data
      ∨ (∃ d, (fetch_article net url title).2 = "alternative: ".data ++ d)
      ∨ (fetch_article net url title).2 = "failed".data := by
  unfold fetch_article
  rcases scrape_url net url with _ | c
  · simp only
    split
    · rcases tryAlts_label net url (search net (title.getD [])) with h | h
      · exact Or.inr (Or.inr h)
      · exact Or.inr (Or.inl h)
    · exact Or.inr (Or.inr rfl)
  · exact Or.inl rfl

/-- C2: whenever fetch_article or scrape_url returns text, that text has at
least 100 characters; extractions below the floor are reported as failure. -/
theorem fetch_text_min_length :
    (∀ (net : Str → Option Node) (url t : Str),
        scrape_url net url = some t → 100 ≤ t.length)
    ∧ (∀ (net : Str → Option Node) (url : Str) (title : Option Str) (t lbl : Str),
        fetch_article net url title = (some t, lbl) → 100 ≤ t.length) := by
  refine ⟨fun net url t h => scrape_url_min net url t h, fun net url title t lbl h => ?_⟩
  unfold fetch_article at h
  rcases hs : scrape_url net url with _ | c <;> rw [hs] at h
  · simp only at h
    split at h
    · obtain ⟨a, _, _, ha, _⟩ := tryAlts_some net url _ t lbl h
      exact scrape_url_min net a t ha
    · simp at h
  · simp only [Prod.mk.injEq, Option.some.injEq] at h
    exact h.1 ▸ scrape_url_min net url c hs

/-- C9: the extraction pipeline (denylist removal, container selection,
paragraph collection and newline collapsing) is a pure function of the parsed
markup: byte-identical inputs give byte-identical output text. -/
theorem extract_deterministic (m1 m2 : Node) (h : m1 = m2) :
    extract_text (selectContent (removeAll m1))
      = extract_text (selectContent (removeAll m2)) := by
  rw [h]

/-- C10: an empty-string title behaves exactly like an absent title (both are
falsy, so no search happens and a failed primary yields (none, failed)); an
empty url makes the primary attempt fail for every oracle without consulting
it, and with a truthy title the result is exactly the fallback over the
search candidates. -/
theorem empty_title_url_behavior :
    (∀ (net : Str → Option Node) (url : Str),
        fetch_article net url (some []) = fetch_article net url none)
    ∧ (∀ (net : Str → Option Node) (url : Str),
        scrape_url net url = none → fetch_article net url none = (none, "failed".data))
    ∧ (∀ net : Str → Option Node, scrape_url net [] = none)
    ∧ (∀ (net : Str → Option Node) (t : Str), t ≠ [] →
        fetch_article net [] (some t) = tryAlts net [] (search net t)) := by
  refine ⟨fun net url => ?_, fun net url h => ?_, fun net => rfl, fun net t ht => ?_⟩
  · unfold fetch_article
    rcases scrape_url net url with _ | c <;> simp [titleTruthy]
  · simp [fetch_article, h, titleTruthy]
  · have h0 : scrape_url net [] = none := rfl
    simp [fetch_article, h0, titleTruthy, List.isEmpty_iff, ht]

theorem processLink_len (acc : List Str) (href : Str) :
    (processLink acc href).length ≤ acc.length + 1 := by
  unfold processLink
  split
  · rcases hm : uddgSearch href with _ | m
    · simp
    · simp only
      split <;> simp
  · split
    · split <;> simp
    · omega

theorem collectUrls_len (links : List Str) :
    ∀ acc : List Str, acc.length ≤ 4 → (collectUrls links acc).length ≤ 5 := by
  induction links with
  | nil => intro acc h; simpa [collectUrls] using by omega
  | cons h rest ih =>
    intro acc hacc
    have hp := processLink_len acc h
    show (if 5 ≤ (processLink acc h).length then processLink acc h
      else collectUrls rest (processLink acc h)).length ≤ 5
    split
    · omega
    · exact ih _ (by omega)

/-- C8: the candidate list returned by the search step never exceeds five
URLs (collection stops at five), and any network or parse failure during
search — oracle `none` — yields the empty list rather than an error. -/
theorem search_cap :
    (∀ (net : Str → Option Node) (title : Str), (search net title).length ≤ 5)
    ∧ (∀ (net : Str → Option Node) (title : Str),
        net (searchUrlOf title) = none → search net title = []) := by
  constructor
  · intro net title
    unfold search
    rcases net (searchUrlOf title) with _ | soup
    · simp
    · exact collectUrls_len _ [] (by simp)
  · intro net title h
    simp [search, h]

theorem pyMax_mem : ∀ (xs : List Node) (x : Node), pyMaxByLen x xs ∈ x :: xs := by
  intro xs
  induction xs with
  | nil => intro x; simp [pyMaxByLen]
  | cons y ys ih =>
    intro x
    rw [show pyMaxByLen x (y :: ys)
      = pyMaxByLen (if (getText x).length < (getText y).length then y else x) ys from rfl]
    split
    · rcases List.mem_cons.mp (ih y) with h | h
      · rw [h]; simp
      · simp [h]
    · rcases List.mem_cons.mp (ih x) with h | h
      · rw [h]; simp
      · simp [h]

theorem pyMax_ub : ∀ (xs : List Node) (x e : Node), e ∈ x :: xs →
    (getText e).length ≤ (getText (pyMaxByLen x xs)).length := by
  intro xs
  induction xs with
  | nil =>
    intro x e he
    rcases List.mem_singleton.mp he with rfl
    simp [pyMaxByLen]
  | cons y ys ih =>
    intro x e he
    rw [List.mem_cons] at he
    rw [show pyMaxByLen x (y :: ys)
      = pyMaxByLen (if (getText x).length < (getText y).length then y else x) ys from rfl]
    have hself : ∀ a, (getText a).length ≤ (getText (pyMaxByLen a ys)).length :=
      fun a => ih a a (List.mem_cons_self _ _)
    split
    · rename_i hlt
      rcases he with rfl | he
      · exact le_trans (le_of_lt hlt) (hself y)
      · rw [List.mem_cons] at he
        rcases he with rfl | he
        · exact hself e
        · exact ih y e (List.mem_cons_of_mem _ he)
    · rename_i hge
      rcases he with rfl | he
      · exact hself e
      · rw [List.mem_cons] at he
        rcases he with rfl | he
        · exact le_trans (Nat.le_of_not_lt hge) (hself x)
        · exact ih x e (List.mem_cons_of_mem _ he)

theorem firstMatch_skip (soup : Node) :
    ∀ ss1 rest : List Selector, (∀ s ∈ ss1, select soup s = []) →
      firstMatch soup (ss1 ++ rest) = firstMatch soup rest := by
  intro ss1
  induction ss1 with
  | nil => intro rest h; rfl
  | cons s ss ih =>
    intro rest h
    have hs : select soup s = [] := h s (List.mem_cons_self _ _)
    rw [List.cons_append]
    have step : firstMatch soup (s :: (ss ++ rest))
        = match select soup s with
          | [] => firstMatch soup (ss ++ rest)
          | x :: xs => some (pyMaxByLen x xs) := rfl
    rw [step, hs]
    exact ih rest fun s2 h2 => h s2 (List.mem_cons_of_mem _ h2)

/-- C3: the content-container step takes the first selector of
CONTENT_SELECTORS with a non-empty match set; within that set it returns an
element of maximal total text length (the strictly maximal element whenever
one exists, Python `max` keeping the first on ties); and only when every
selector matches nothing does it fall back to the document body, or to the
whole document when there is no body. -/
theorem selectContent_spec (soup : Node) :
    (∀ (ss1 : List Selector) (s : Selector) (ss2 : List Selector),
        CONTENT_SELECTORS = ss1 ++ s :: ss2 →
        (∀ s2 ∈ ss1, select soup s2 = []) → select soup s ≠ [] →
          selectContent soup ∈ select soup s
          ∧ (∀ e ∈ select soup s,
              (getText e).length ≤ (getText (selectContent soup)).length)
          ∧ ∀ e ∈ select soup s,
              (∀ e2 ∈ select soup s, e2 ≠ e →
                (getText e2).length < (getText e).length) →
              selectContent soup = e)
    ∧ ((∀ s ∈ CONTENT_SELECTORS, select soup s = []) →
        selectContent soup = (findBody soup).getD soup) := by
  constructor
  · intro ss1 s ss2 hsplit hprev hne
    rcases hsel : select soup s with _ | ⟨x, xs⟩
    · exact absurd hsel hne
    · have hfm : firstMatch soup CONTENT_SELECTORS = some (pyMaxByLen x xs) := by
        rw [hsplit, firstMatch_skip soup ss1 (s :: ss2) hprev]
        rw [show firstMatch soup (s :: ss2)
          = match select soup s with
            | [] => firstMatch soup ss2
            | x :: xs => some (pyMaxByLen x xs) from rfl, hsel]
      have hsc : selectContent soup = pyMaxByLen x xs := by
        unfold selectContent
        rw [hfm]
      have hmem : selectContent soup ∈ x :: xs := by
        rw [hsc]
        exact pyMax_mem xs x
      have hub : ∀ e ∈ x :: xs,
          (getText e).length ≤ (getText (selectContent soup)).length := by
        intro e he
        rw [hsc]
        exact pyMax_ub xs x e he
      refine ⟨hmem, hub, fun e he hstrict => ?_⟩
      by_contra hne2
      have h1 := hub e he
      have h2 := hstrict (selectContent soup) hmem hne2
      omega
  · intro hall
    have h0 := firstMatch_skip soup CONTENT_SELECTORS [] hall
    rw [List.append_nil] at h0
    have hfm : firstMatch soup CONTENT_SELECTORS = none := h0
    unfold selectContent
    rw [hfm]
    rcases hb : findBody soup <;> simp

theorem isPrefixB_iff (p : Str) : ∀ l : Str, isPrefixB p l = true ↔ p <+: l := by
  induction p with
  | nil => intro l; simp [isPrefixB]
  | cons a as ih =>
    intro l
    cases l with
    | nil => simp [isPrefixB]
    | cons b bs => simp [isPrefixB, List.cons_prefix_cons, ih, Bool.and_eq_true, beq_iff_eq]

theorem isInfixB_iff (p : Str) : ∀ l : Str, isInfixB p l = true ↔ p <:+: l := by
  intro l
  induction l with
  | nil =>
    rw [show isInfixB p [] = isPrefixB p [] from rfl, isPrefixB_iff]
    simp
  | cons c rest ih =>
    rw [show isInfixB p (c :: rest) = (isPrefixB p (c :: rest) || isInfixB p rest) from rfl]
    rw [Bool.or_eq_true, isPrefixB_iff, ih, List.infix_cons_iff]

theorem takeWhile_pref (p : Char → Bool) (l : Str) : l.takeWhile p <+: l := by
  exact List.takeWhile_prefix p

theorem dropWhile_sfx (p : Char → Bool) (l : Str) : l.dropWhile p <:+ l := by
  exact List.dropWhile_suffix p

theorem pref_inf {a b : Str} (h : a <+: b) : a <:+: b := by
  obtain ⟨t, ht⟩ := h
  exact ⟨[], t, by simpa using ht⟩

theorem sfx_inf {a b : Str} (h : a <:+ b) : a <:+: b := by
  obtain ⟨t, ht⟩ := h
  exact ⟨t, [], by simpa using ht⟩

theorem inf_map (f : Char → Char) {a b : Str} (h : a <:+: b) :
    a.map f <:+: b.map f := by
  obtain ⟨s, t, ht⟩ := h
  exact ⟨s.map f, t.map f, by rw [← List.map_append, ← List.map_append, ht]⟩

theorem splitAtColon_eq : ∀ (url a b : Str), splitAtColon url = some (a, b) →
    url = a ++ ':' :: b := by
  intro url
  induction url with
  | nil => intro a b h; simp [splitAtColon] at h
  | cons c rest ih =>
    intro a b h
    unfold splitAtColon at h
    split at h
    · rename_i hc
      simp only [Option.some.injEq, Prod.mk.injEq] at h
      rw [← h.1, ← h.2, hc]
      rfl
    · rcases hs : splitAtColon rest with _ | ⟨a2, b2⟩ <;> rw [hs] at h
      · simp at h
      · simp only [Option.map] at h
        simp only [Option.some.injEq, Prod.mk.injEq] at h
        rw [← h.1, ← h.2, ih a2 b2 hs]
        rfl

theorem afterScheme_sfx (url : Str) : afterScheme url <:+ url := by
  unfold afterScheme
  rcases hs : splitAtColon url with _ | ⟨a, b⟩
  · exact List.suffix_refl url
  · show (if isSchemeStr a = true then b else url) <:+ url
    split
    · exact ⟨a ++ [':'], by rw [splitAtColon_eq url a b hs]; simp⟩
    · exact List.suffix_refl url

theorem netloc_inf (url : Str) : netlocOf url <:+: url := by
  unfold netlocOf
  split
  · exact ((pref_inf (takeWhile_pref _ _)).trans
      (sfx_inf (List.drop_suffix 2 (afterScheme url)))).trans
      (sfx_inf (afterScheme_sfx url))
  · simp

theorem path_inf (url : Str) : pathOf url <:+: url := by
  unfold pathOf
  split
  · exact (pref_inf (takeWhile_pref _ _)).trans
      (((sfx_inf (dropWhile_sfx _ _)).trans
        (sfx_inf (List.drop_suffix 2 (afterScheme url)))).trans
        (sfx_inf (afterScheme_sfx url)))
  · exact (pref_inf (takeWhile_pref _ _)).trans (sfx_inf (afterScheme_sfx url))

theorem processLink_news (acc : List Str) (href u : Str)
    (hacc : ∀ v ∈ acc, is_news_url v = true) (hu : u ∈ processLink acc href) :
    is_news_url u = true := by
  unfold processLink at hu
  split at hu
  · rcases hm : uddgSearch href with _ | m <;> rw [hm] at hu
    · exact hacc u hu
    · simp only at hu
      split at hu
      · rcases List.mem_append.mp hu with h | h
        · exact hacc u h
        · rcases List.mem_singleton.mp h with rfl
          assumption
      · exact hacc u hu
  · split at hu
    · split at hu
      · rcases List.mem_append.mp hu with h | h
        · exact hacc u h
        · rcases List.mem_singleton.mp h with rfl
          assumption
      · exact hacc u hu
    · exact hacc u hu

theorem collectUrls_news (links : List Str) :
    ∀ acc : List Str, (∀ v ∈ acc, is_news_url v = true) →
      ∀ u ∈ collectUrls links acc, is_news_url u = true := by
  induction links with
  | nil => intro acc hacc u hu; exact hacc u hu
  | cons h rest ih =>
    intro acc hacc u hu
    have hstep : ∀ v ∈ processLink acc h, is_news_url v = true :=
      fun v hv => processLink_news acc h v hacc hv
    rw [show collectUrls (h :: rest) acc
      = if 5 ≤ (processLink acc h).length then processLink acc h
        else collectUrls rest (processLink acc h) from rfl] at hu
    split at hu
    · exact hstep u hu
    · exact ih (processLink acc h) hstep u hu

theorem search_news (net : Str → Option Node) (title : Str) :
    ∀ u ∈ search net title, is_news_url u = true := by
  intro u hu
  unfold search at hu
  rcases hn : net (searchUrlOf title) with _ | soup <;> rw [hn] at hu
  · simp at hu
  · exact collectUrls_news (linkHrefs soup) [] (by simp) u hu

/-- C6: no URL returned by the search step has a host containing one of the
denylisted social/video/shopping/encyclopedia domains, nor a path containing
one of the denylisted segments (the source filters any URL whose lowercased
text contains a skip pattern, which covers host and path in particular). -/
theorem search_denylist (net : Str → Option Node) (title u : Str)
    (hu : u ∈ search net title) :
    (∀ d ∈ domain_patterns, ¬ d <:+: lowerS (netlocOf u))
      ∧ ∀ p ∈ path_patterns, ¬ p <:+: lowerS (pathOf u) := by
  have hnews := search_news net title u hu
  unfold is_news_url at hnews
  rw [Bool.not_eq_eq_eq_not, Bool.not_true, List.any_eq_false] at hnews
  constructor
  · intro d hd hinf
    have hdskip : d ∈ skip_patterns := by
      unfold skip_patterns
      exact List.mem_append_left _ hd
    have : d <:+: lowerS u :=
      hinf.trans (inf_map Char.toLower (netloc_inf u))
    exact hnews d hdskip ((isInfixB_iff d (lowerS u)).mpr this)
  · intro p hp hinf
    have hpskip : p ∈ skip_patterns := by
      unfold skip_patterns
      exact List.mem_append_right _ hp
    have : p <:+: lowerS u :=
      hinf.trans (inf_map Char.toLower (path_inf u))
    exact hnews p hpskip ((isInfixB_iff p (lowerS u)).mpr this)

theorem urlDecode_len : ∀ s : Str, (urlDecode s).length ≤ s.length := by
  intro s
  induction s using urlDecode.induct with
  | case1 => simp [urlDecode]
  | case2 a b r2 ha hb hhb hha ih =>
    rw [show urlDecode ('%' :: a :: b :: r2)
      = (match hexVal a, hexVal b with
         | some x, some y => Char.ofNat (16 * x + y) :: urlDecode r2
         | _, _ => '%' :: urlDecode (a :: b :: r2)) from rfl, hha, hhb]
    simp only [List.length_cons]
    omega
  | case3 a b r2 hno ih =>
    rw [show urlDecode ('%' :: a :: b :: r2)
      = (match hexVal a, hexVal b with
         | some x, some y => Char.ofNat (16 * x + y) :: urlDecode r2
         | _, _ => '%' :: urlDecode (a :: b :: r2)) from rfl]
    rcases hva : hexVal a with _ | x
    · rcases hvb : hexVal b with _ | y
      · show ('%' :: urlDecode (a :: b :: r2)).length ≤ ('%' :: a :: b :: r2).length
        simp only [List.length_cons] at ih ⊢
        omega
      · show ('%' :: urlDecode (a :: b :: r2)).length ≤ ('%' :: a :: b :: r2).length
        simp only [List.length_cons] at ih ⊢
        omega
    · rcases hvb : hexVal b with _ | y
      · show ('%' :: urlDecode (a :: b :: r2)).length ≤ ('%' :: a :: b :: r2).length
        simp only [List.length_cons] at ih ⊢
        omega
      · exact (hno x y hva hvb).elim
  | case4 c rest hnp ih =>
    rw [urlDecode.eq_3 c rest hnp]
    simp only [List.length_cons]
    omega

theorem uddg_len : ∀ (s m : Str), uddgSearch s = some m → m.length + 5 ≤ s.length := by
  intro s
  induction s with
  | nil => intro m h; simp [uddgSearch] at h
  | cons c rest ih =>
    intro m h
    unfold uddgSearch at h
    split at h
    · rename_i hpre
      have h2 : (if ((rest.drop 4).takeWhile fun x => x != '&').isEmpty = true
          then uddgSearch rest
          else some ((rest.drop 4).takeWhile fun x => x != '&')) = some m := h
      clear h
      split at h2
      · have := ih m h2
        simp only [List.length_cons]
        omega
      · rw [Option.some.injEq] at h2
        have hlen5 : 5 ≤ (c :: rest).length :=
          List.IsPrefix.length_le ((isPrefixB_iff _ _).mp hpre)
        have htw : ((rest.drop 4).takeWhile fun x => x != '&').length
            ≤ (rest.drop 4).length :=
          List.IsPrefix.length_le (takeWhile_pref _ _)
        rw [← h2]
        simp only [List.length_cons, List.length_drop] at hlen5 htw ⊢
        omega
    · have := ih m h
      simp only [List.length_cons]
      omega

/-- How a candidate URL can arise from a single result-link `href`: either the
link is redirect-wrapped (`uddg=` occurs in it) and the candidate is the
URL-decoded parameter value — never the wrapper itself — or the link is not
wrapped, starts with `http`, and is taken verbatim. -/
def emittedFrom (href u : Str) : Prop :=
  (isInfixB "uddg=".data href = true
    ∧ ∃ m, uddgSearch href = some m ∧ u = urlDecode m ∧ u ≠ href)
  ∨ (isInfixB "uddg=".data href = false ∧ isPrefixB "http".data href = true ∧ u = href)

theorem processLink_from (acc : List Str) (href u : Str)
    (hu : u ∈ processLink acc href) : u ∈ acc ∨ emittedFrom href u := by
  unfold processLink at hu
  split at hu
  · rename_i hinf
    rcases hm : uddgSearch href with _ | m <;> rw [hm] at hu
    · exact Or.inl hu
    · simp only at hu
      split at hu
      · rcases List.mem_append.mp hu with h | h
        · exact Or.inl h
        · rcases List.mem_singleton.mp h with rfl
          refine Or.inr (Or.inl ⟨hinf, m, hm, rfl, ?_⟩)
          have h1 := urlDecode_len m
          have h2 := uddg_len href m hm
          intro heq
          have := congrArg List.length heq
          omega
      · exact Or.inl hu
  · rename_i hninf
    split at hu
    · rename_i hpre
      split at hu
      · rcases List.mem_append.mp hu with h | h
        · exact Or.inl h
        · rcases List.mem_singleton.mp h with rfl
          exact Or.inr (Or.inr ⟨Bool.of_not_eq_true hninf, hpre, rfl⟩)
      · exact Or.inl hu
    · exact Or.inl hu

theorem collectUrls_from (links : List Str) :
    ∀ (acc : List Str) (u : Str), u ∈ collectUrls links acc →
      u ∈ acc ∨ ∃ href ∈ links, emittedFrom href u := by
  induction links with
  | nil => intro acc u hu; exact Or.inl hu
  | cons h rest ih =>
    intro acc u hu
    rw [show collectUrls (h :: rest) acc
      = if 5 ≤ (processLink acc h).length then processLink acc h
        else collectUrls rest (processLink acc h) from rfl] at hu
    have hcase : u ∈ processLink acc h ∨ ∃ href ∈ rest, emittedFrom href u := by
      split at hu
      · exact Or.inl hu
      · rcases ih (processLink acc h) u hu with h1 | ⟨href, hh, he⟩
        · exact Or.inl h1
        · exact Or.inr ⟨href, hh, he⟩
    rcases hcase with h1 | ⟨href, hh, he⟩
    · rcases processLink_from acc h u h1 with h2 | h2
      · exact Or.inl h2
      · exact Or.inr ⟨h, List.mem_cons_self _ _, h2⟩
    · exact Or.inr ⟨href, List.mem_cons_of_mem _ hh, he⟩

/-- C7 (amended): every candidate produced by the search step comes from a
result link of the fetched search page: a redirect-wrapped link (`uddg=`)
contributes exactly the URL-decoded parameter value and never the wrapper URL
itself, while an unwrapped link is used verbatim exactly when it starts with
the string `http`. -/
theorem search_candidates_origin (net : Str → Option Node) (title u : Str)
    (hu : u ∈ search net title) :
    ∃ soup, net (searchUrlOf title) = some soup
      ∧ ∃ href ∈ linkHrefs soup, emittedFrom href u := by
  unfold search at hu
  rcases hn : net (searchUrlOf title) with _ | soup <;> rw [hn] at hu
  · simp at hu
  · rcases collectUrls_from (linkHrefs soup) [] u hu with h | ⟨href, hh, he⟩
    · simp at h
    · exact ⟨soup, rfl, href, hh, he⟩

theorem tryAlts_cons (net : Str → Option Node) (url a : Str) (rest : List Str) :
    tryAlts net url (a :: rest)
      = if a = url then tryAlts net url rest
        else match scrape_url net a with
          | some c => (some c, "alternative: ".data ++ get_domain a)
          | none => tryAlts net url rest := rfl

theorem reSub_filter : ∀ t : Str,
    reSubNonWordSpace t = t.filter fun c => isWordB c || isSpaceB c := by
  intro t
  induction t with
  | nil => rfl
  | cons c rest ih =>
    unfold reSubNonWordSpace
    rw [List.filter_cons, ih]

/-- C5 (amended): the query is the title restricted to word characters
(alphanumerics and the underscore, Python `\w`) and whitespace, truncated to
100 characters, with the literal suffix " news" appended after truncation. -/
theorem query_sanitize_spec (title : Str) :
    queryOf title
      = ((title.filter fun c => isWordB c || isSpaceB c).take 100) ++ " news".data := by
  unfold queryOf searchQueryOf
  rw [reSub_filter]

/-- The sanitizer the claim describes: keep exactly the alphanumeric and
whitespace characters, stripping all punctuation (underscore included). -/
def claimQuery (title : Str) : Str :=
  ((title.filter fun c => c.isAlphanum || isSpaceB c).take 100) ++ " news".data

/-- C5 counterexample: the underscore is a punctuation character, so the
claimed sanitizer strips it, but the source keeps every `\w` character and
`\w` includes the underscore; on the title "_" the produced query is
"_ news", not " news". -/
theorem query_underscore_counterexample :
    queryOf "_".data = "_ news".data ∧ claimQuery "_".data = " news".data
      ∧ queryOf "_".data ≠ claimQuery "_".data := by
  refine ⟨rfl, rfl, ?_⟩
  decide

/-- The domain function the claim describes: the host with a leading "www."
stripped and no other modification. -/
def stripLeadingWww (h : Str) : Str :=
  if isPrefixB "www.".data h then h.drop 4 else h

/-- Is a string an absolute HTTP(S) URL in the sense of the claim? -/
def isAbsoluteHttpUrl (u : Str) : Bool :=
  isPrefixB "http://".data u || isPrefixB "https://".data u

/-- A 146-character article text used as concrete witness data. -/
def longText : Str :=
  ("The quick brown fox jumps over the lazy dog while the rain in Spain stays "
    ++ "mainly in the plain and the band plays on through the long summer night.").data

/-- A concrete article page whose body holds one long paragraph. -/
def articlePage : Node :=
  .elem "[document]".data []
    [.elem "html".data [] [.elem "body".data [] [.elem "p".data [] [.text longText]]]]

/-- A fallback candidate whose host has an interior "www." component. -/
def altUrl : Str := "https://news.www.example.com/a".data

/-- A search-result page with one result link pointing at `altUrl`. -/
def searchPage4 : Node :=
  .elem "[document]".data []
    [.elem "a".data [("class".data, "result__a".data), ("href".data, altUrl)] []]

/-- Oracle for the C4 scenario: the primary URL fails, the search page lists
`altUrl`, and `altUrl` scrapes successfully. -/
def net4 : Str → Option Node := fun u =>
  if u = searchUrlOf "t".data then some searchPage4
  else if u = altUrl then some articlePage
  else none

set_option maxRecDepth 40000 in
/-- C4 counterexample: `_get_domain` uses `str.replace`, which removes every
occurrence of "www.", not just a leading prefix; on the candidate host
news.www.example.com the fallback label is "alternative: news.example.com"
although the host has no leading "www." to strip. -/
theorem get_domain_counterexample :
    fetch_article net4 "https://orig.example/x".data (some "t".data)
      = (some longText, "alternative: news.example.com".data)
    ∧ get_domain altUrl ≠ stripLeadingWww (netlocOf altUrl) := by
  refine ⟨rfl, ?_⟩
  decide

/-- C4 (amended): a fallback success carries the label "alternative: "
followed by the candidate's netloc with every occurrence of "www." removed
(Python `replace` semantics), the successful candidate comes from the search
list and differs from the original URL; candidates equal to the original URL
are skipped, i.e. the fallback loop ignores them entirely. -/
theorem fetch_alt_domain_spec :
    (∀ (net : Str → Option Node) (url title t lbl : Str),
        fetch_article net url (some title) = (some t, lbl) → lbl ≠ "original".data →
        ∃ a ∈ search net title, a ≠ url ∧ scrape_url net a = some t
          ∧ lbl = "alternative: ".data ++ replaceWww (netlocOf a))
    ∧ ∀ (net : Str → Option Node) (url : Str) (alts : List Str),
        tryAlts net url alts = tryAlts net url (alts.filter fun a => a != url) := by
  constructor
  · intro net url title t lbl h hne
    unfold fetch_article at h
    rcases hs : scrape_url net url with _ | c <;> rw [hs] at h
    · simp only at h
      split at h
      · exact tryAlts_some net url _ t lbl h
      · simp at h
    · simp only [Prod.mk.injEq] at h
      exact absurd h.2.symm hne
  · intro net url alts
    induction alts with
    | nil => rfl
    | cons a rest ih =>
      by_cases ha : a = url
      · have hf : List.filter (fun x => x != url) (a :: rest)
            = List.filter (fun x => x != url) rest := by
          rw [List.filter_cons]
          simp [ha]
        rw [tryAlts_cons, if_pos ha, hf]
        exact ih
      · have hf : List.filter (fun x => x != url) (a :: rest)
            = a :: List.filter (fun x => x != url) rest := by
          rw [List.filter_cons]
          simp [ha]
        rw [tryAlts_cons, if_neg ha, hf, tryAlts_cons, if_neg ha]
        rcases scrape_url net a with _ | c
        · exact ih
        · rfl

/-- A search-result page with one result link whose href is "httpfoo":
not redirect-wrapped, not an absolute HTTP(S) URL, but it starts with
"http" so the source takes it verbatim. -/
def searchPage7 : Node :=
  .elem "[document]".data []
    [.elem "a".data [("class".data, "result__a".data), ("href".data, "httpfoo".data)] []]

/-- Oracle for the C7 counterexample. -/
def net7 : Str → Option Node := fun u =>
  if u = searchUrlOf "t".data then some searchPage7 else none

set_option maxRecDepth 40000 in
/-- C7 counterexample: the source accepts unwrapped links with
`href.startswith('http')`, which also admits strings that are not absolute
HTTP(S) URLs; the relative href "httpfoo" is emitted as a candidate. -/
theorem search_direct_link_counterexample :
    search net7 "t".data = ["httpfoo".data]
      ∧ isAbsoluteHttpUrl "httpfoo".data = false := by
  refine ⟨rfl, rfl⟩

/-- A search-result page with one redirect-wrapped result link. -/
def searchPage7w : Node :=
  .elem "[document]".data []
    [.elem "a".data
      [("class".data, "result__a".data),
       ("href".data, "/l/?kh=-1&uddg=https%3A%2F%2Fexample.org%2Fstory".data)] []]

/-- Oracle for the C7 witness. -/
def net7w : Str → Option Node := fun u =>
  if u = searchUrlOf "t2".data then some searchPage7w else none

set_option maxRecDepth 40000 in
theorem search_candidates_origin_witness :
    ∃ soup, net7w (searchUrlOf "t2".data) = some soup
      ∧ ∃ href ∈ linkHrefs soup,
          emittedFrom href "https://example.org/story".data :=
  search_candidates_origin net7w "t2".data "https://example.org/story".data (by decide)

set_option maxRecDepth 40000 in
theorem fetch_alt_domain_spec_witness :
    ∃ a ∈ search net4 "t".data, a ≠ "https://orig.example/x".data
      ∧ scrape_url net4 a = some longText
      ∧ "alternative: news.example.com".data
          = "alternative: ".data ++ replaceWww (netlocOf a) :=
  fetch_alt_domain_spec.1 net4 "https://orig.example/x".data "t".data longText
    "alternative: news.example.com".data (by rfl) (by decide)

/-- Oracle serving the concrete article page at a single URL. -/
def net2 : Str → Option Node := fun u =>
  if u = "https://example.com/a".data then some articlePage else none

set_option maxRecDepth 40000 in
theorem fetch_text_min_length_witness : 100 ≤ longText.length :=
  fetch_text_min_length.1 net2 "https://example.com/a".data longText (by rfl)

/-- A document matching no content selector and holding no body element. -/
def bareDoc : Node := .elem "[document]".data [] [.text "x".data]

theorem selectContent_spec_witness :
    selectContent bareDoc = (findBody bareDoc).getD bareDoc :=
  (selectContent_spec bareDoc).2 (by intro s hs; fin_cases hs <;> rfl)

/-- A search-result page with one clean candidate link. -/
def searchPage6 : Node :=
  .elem "[document]".data []
    [.elem "a".data
      [("class".data, "result__a".data),
       ("href".data, "https://example.com/article".data)] []]

/-- Oracle for the C6 witness. -/
def net6 : Str → Option Node := fun u =>
  if u = searchUrlOf "t".data then some searchPage6 else none

set_option maxRecDepth 40000 in
theorem search_denylist_witness :
    ¬ "youtube.com".data <:+: lowerS (netlocOf "https://example.com/article".data) :=
  (search_denylist net6 "t".data "https://example.com/article".data (by decide)).1
    "youtube.com".data (by unfold domain_patterns; exact List.mem_cons_self _ _)

theorem search_cap_witness : search (fun _ => none) "x".data = [] :=
  search_cap.2 (fun _ => none) "x".data rfl

theorem extract_deterministic_witness :
    extract_text (selectContent (removeAll articlePage))
      = extract_text (selectContent (removeAll articlePage)) :=
  extract_deterministic articlePage articlePage rfl

theorem empty_title_url_behavior_witness :
    fetch_article (fun _ => none) [] (some "t".data)
      = tryAlts (fun _ => none) [] (search (fun _ => none) "t".data) :=
  empty_title_url_behavior.2.2.2 (fun _ => none) "t".data (by decide)

end NT
